import Mathlib

/-!
Shallow embedding of `src/main.cpp` (class `Plink2Reader`), a reader for a
PLINK2-style `.pgen`/`.pvar`/`.psam` file triple, together with theorems
about its header validation, windowed genotype reads and metadata field
extraction.

Files are modelled as pure values: the binary `.pgen` file as a `List Nat`
of its bytes, the text `.pvar`/`.psam` files as a `List (List Char)` of
their lines.  Stream state (read position, fail bit, the local variables
that C++ leaves unchanged on a failed read) is passed explicitly.
Machine integers are `Nat` with explicit `% 2 ^ 32` where `uint32_t`
overflow matters.
-/

namespace Plink2

/-- Missing-genotype sentinel: the source stores `-1` for raw code 3
(`main.cpp` line 86, comment `-1 for missing`). -/
def MISSING : Int := -1

/-- Decode of one raw byte, from `main.cpp` lines 85-86:
`int genotype = byte & 0x03;` followed by `(genotype == 3) ? -1 : genotype`. -/
def decode (b : Nat) : Int :=
  let genotype := b &&& 0x03
  if genotype = 3 then -1 else (genotype : Int)

/-- State of the `.pgen` byte stream plus the output matrix while
`readGenotypesChunk` runs.  `pos` is the stream position, `failed` the
stream fail bit, `last` models the stack slot of the local `uint8_t byte`
(which keeps its previous content when `istream::read` fails), `log`
records the position of every attempted one-byte read in order, and `g`
is the caller-provided `genotypes` matrix. -/
structure St where
  pos : Nat
  last : Nat
  failed : Bool
  log : List Nat
  g : List (List Int)
  deriving DecidableEq, Repr

/-- One-byte read (`pgen_file.read(reinterpret_cast<char*>(&byte), 1)`,
`main.cpp` line 84): succeeds and advances iff the stream has not failed
and a byte is available; otherwise it sets the fail bit and leaves the
destination variable (`last`) unchanged. -/
def readByte (file : List Nat) (st : St) : Nat × St :=
  let st1 : St := { st with log := st.log ++ [st.pos] }
  if h : st.failed = false ∧ st.pos < file.length then
    (file.get ⟨st.pos, h.2⟩,
     { st1 with pos := st.pos + 1, last := file.get ⟨st.pos, h.2⟩ })
  else
    (st.last, { st1 with failed := true })

/-- `genotypes[r][c] = x` (`main.cpp` line 86).  Writes outside the
current matrix extent are modelled as no-ops of `List.set`. -/
def writeCell (g : List (List Int)) (r c : Nat) (x : Int) : List (List Int) :=
  g.set r ((g.getD r []).set c x)

/-- Body of the inner sample loop of `readGenotypesChunk`
(`main.cpp` lines 81-87): read one byte, decode it, store it at
`genotypes[sample - start_sample][variant - start_variant]`. -/
def innerStep (file : List Nat) (start_variant start_sample v : Nat)
    (st : St) (s : Nat) : St :=
  let p := readByte file st
  let value : Int := decode p.1
  { p.2 with g := writeCell p.2.g (s - start_sample) (v - start_variant) value }

/-- `std::vector::resize(n, fill)`: truncates when shrinking, appends
copies of `fill` when growing, and leaves existing elements unchanged. -/
def vectorResize (v : List (List Int)) (n : Nat) (fill : List Int) :
    List (List Int) :=
  if n ≤ v.length then v.take n else v ++ List.replicate (n - v.length) fill

/-- The seek target of `main.cpp` line 77:
`uint64_t start_pos = 11 + (start_variant * sample_count + start_sample) / 4;`
where the multiplication and additions inside the parentheses are
`uint32_t` arithmetic, hence the `% 2 ^ 32`. -/
def startPos (start_variant sample_count start_sample : Nat) : Nat :=
  11 + ((start_variant * sample_count + start_sample) % 2 ^ 32) / 4

/-- `Plink2Reader::readGenotypesChunk` (`main.cpp` lines 66-89).
`variant_count`/`sample_count` are the header fields, `file` the bytes of
the `.pgen` file, `pos0`/`failed0` the stream state on entry, `byteInit`
the (indeterminate) initial content of the local `byte` variable and
`genotypes` the caller-provided output vector.  The two `for` loops are
folds over `List.range'`; `end_variant - start_variant` is the exact
`uint32_t` iteration count of a loop `for (v = sv; v < ev; ++v)`. -/
def readGenotypesChunk (variant_count sample_count : Nat) (file : List Nat)
    (pos0 : Nat) (failed0 : Bool) (byteInit : Nat)
    (genotypes : List (List Int))
    (start_variant end_variant start_sample end_sample : Nat) :
    Except String St :=
  if end_variant > variant_count ∨ end_sample > sample_count then
    .error "Requested chunk is out of range"
  else
    let num_variants := (2 ^ 32 + end_variant - start_variant) % 2 ^ 32
    let num_samples := (2 ^ 32 + end_sample - start_sample) % 2 ^ 32
    let g1 := vectorResize genotypes num_samples (List.replicate num_variants 0)
    let pos1 := if failed0 then pos0
      else startPos start_variant sample_count start_sample
    let st0 : St := ⟨pos1, byteInit, failed0, [], g1⟩
    let stF := (List.range' start_variant (end_variant - start_variant)).foldl
      (fun st v =>
        (List.range' start_sample (end_sample - start_sample)).foldl
          (innerStep file start_variant start_sample v) st)
      st0
    .ok stF

/-- Whether an `Except` result is a success. -/
def exceptIsOk {ε α : Type} : Except ε α → Bool
  | .ok _ => true
  | .error _ => false

/-- Result of `Plink2Reader::readHeader` (`main.cpp` lines 43-63): the
two count fields, the computed `file_size`, and the stream state
(`pos`, `failed`) it leaves behind. -/
structure Header where
  variant_count : Nat
  sample_count : Nat
  file_size : Nat
  pos : Nat
  failed : Bool
  deriving DecidableEq, Repr

/-- `istream::read(buf, n)` on a byte file: if the stream has already
failed the read is a no-op; otherwise it extracts as many of the `n`
requested bytes as are available, advancing the position by that many
and setting the fail bit when fewer than `n` were available.  Returns
the extracted bytes and the new `(pos, failed)` state. -/
def readChars (file : List Nat) (n : Nat) (st : Nat × Bool) :
    List Nat × (Nat × Bool) :=
  if st.2 then ([], st)
  else
    let chunk := (file.drop st.1).take n
    (chunk, (st.1 + chunk.length, decide (chunk.length < n)))

/-- Little-endian value of a byte list (how `reinterpret_cast<char*>` of
a `uint32_t` lays its bytes out on the source's x86 target). -/
def leVal : List Nat → Nat
  | [] => 0
  | b :: bs => b + 256 * leVal bs

/-- `istream::read(reinterpret_cast<char*>(&x), n)` into an `n`-byte
unsigned integer `x` whose previous (indeterminate) content is `init`:
the extracted bytes overwrite the low-order bytes of `x`, the remaining
high-order bytes keep their previous content. -/
def readLE (file : List Nat) (n init : Nat) (st : Nat × Bool) :
    Nat × (Nat × Bool) :=
  let p := readChars file n st
  (leVal p.1 + (init % 256 ^ n / 256 ^ p.1.length) * 256 ^ p.1.length, p.2)

/-- `Plink2Reader::readHeader` (`main.cpp` lines 43-63).  `j0 j1` model
the indeterminate initial contents of `char magic[2]`, and `vcInit`,
`scInit` those of the uninitialized `variant_count` / `sample_count`
members.  The mode byte (line 52-53) is read but neither stored nor
checked.  `file_size = tellg()` yields `2^64 - 1` (the `uint64_t` cast
of `-1`) when the stream has failed; `seekg` on a failed stream is a
no-op. -/
def readHeader (file : List Nat) (j0 j1 vcInit scInit : Nat) :
    Except String Header :=
  let m := readChars file 2 (0, false)
  let magic0 := m.1.getD 0 j0
  let magic1 := m.1.getD 1 j1
  if magic0 ≠ 0x6c ∨ magic1 ≠ 0x1b then
    .error "Invalid PGEN file format"
  else
    let md := readChars file 1 m.2
    let vc := readLE file 4 vcInit md.2
    let sc := readLE file 4 scInit vc.2
    let stEnd : Nat × Bool :=
      if sc.2.2 then sc.2 else (file.length, false)
    let file_size : Nat := if stEnd.2 then 2 ^ 64 - 1 else stEnd.1
    let stFinal : Nat × Bool := if stEnd.2 then stEnd else (11, false)
    .ok ⟨vc.1, sc.1, file_size, stFinal.1, stFinal.2⟩

/-- State of a text stream (`.pvar` or `.psam`) together with the local
`std::string line` variable of the chunk-reading methods: `cur` is the
index of the next line `getline` would extract, `failed` the fail bit,
and `line` the current content of the `line` variable. -/
structure TextSt where
  cur : Nat
  failed : Bool
  line : List Char
  deriving DecidableEq, Repr

/-- `std::getline(stream, line)`: on an already-failed stream it leaves
`line` untouched; at end of file it erases `line` and sets the fail bit;
otherwise it stores the next line and advances. -/
def getlineM (lines : List (List Char)) (st : TextSt) : TextSt :=
  if st.failed then st
  else if h : st.cur < lines.length then
    { st with line := lines.get ⟨st.cur, h⟩, cur := st.cur + 1 }
  else
    { st with line := [], failed := true }

/-- The skip loops of `main.cpp` lines 101-103 / 124-126: `n` successive
`getline` calls whose results are discarded. -/
def skipLines (lines : List (List Char)) (st : TextSt) : Nat → TextSt
  | 0 => st
  | n + 1 => skipLines lines (getlineM lines st) n

/-- Index of the first tab in a line; `std::string::find('\t')` returns
`npos` when absent, modelled as `none`. -/
def findTabIdx (cs : List Char) : Option Nat :=
  cs.findIdx? (fun c => c = '\t')

/-- The variant-identifier extraction of `main.cpp` lines 108-109:
`id = line.substr(line.find('\t') + 1); id = id.substr(0, id.find('\t'))`.
When `find` returns `npos` (no tab), `npos + 1` wraps to `0` in `size_t`
arithmetic, so the first `substr` returns the whole line; a `substr`
with count `npos` likewise returns the rest of the string. -/
def extractVariantId (line : List Char) : List Char :=
  let id :=
    match findTabIdx line with
    | some i => line.drop (i + 1)
    | none => line
  match findTabIdx id with
  | some j => id.take j
  | none => id

/-- The sample-identifier extraction of `main.cpp` line 131:
`id = line.substr(0, line.find('\t'))`; a count of `npos` (no tab)
returns the whole line. -/
def extractSampleId (line : List Char) : List Char :=
  match findTabIdx line with
  | some i => line.take i
  | none => line

/-- Body of the record loop of `readVariantInfoChunk` /
`readSampleInfoChunk` (`main.cpp` lines 106-111 / 129-133): `getline`,
extract the field from the fresh `line`, `push_back`. -/
def infoStep (lines : List (List Char)) (extract : List Char → List Char)
    (p : TextSt × List (List Char)) (_i : Nat) : TextSt × List (List Char) :=
  let st' := getlineM lines p.1
  (st', p.2 ++ [extract st'.line])

/-- Common body of `readVariantInfoChunk` and `readSampleInfoChunk`
(`main.cpp` lines 91-112 and 114-134), which are identical up to the
bounding count and the field-extraction expression: range check, skip
the header line, skip `start` more lines, then `getline`-extract-push
for each record index in `[start, end)`. -/
def readInfoChunkAux (count : Nat) (lines : List (List Char)) (st : TextSt)
    (ids : List (List Char)) (start_rec end_rec : Nat)
    (extract : List Char → List Char) :
    Except String (List (List Char) × TextSt) :=
  if end_rec > count then
    .error "Requested chunk is out of range"
  else
    let st1 := getlineM lines st
    let st2 := skipLines lines st1 start_rec
    let r := (List.range' start_rec (end_rec - start_rec)).foldl
      (infoStep lines extract) (st2, ids)
    .ok (r.2, r.1)

/-- `Plink2Reader::readVariantInfoChunk` (`main.cpp` lines 91-112). -/
def readVariantInfoChunk (variant_count : Nat) (lines : List (List Char))
    (st : TextSt) (variant_ids : List (List Char))
    (start_variant end_variant : Nat) :
    Except String (List (List Char) × TextSt) :=
  readInfoChunkAux variant_count lines st variant_ids
    start_variant end_variant extractVariantId

/-- `Plink2Reader::readSampleInfoChunk` (`main.cpp` lines 114-134). -/
def readSampleInfoChunk (sample_count : Nat) (lines : List (List Char))
    (st : TextSt) (sample_ids : List (List Char))
    (start_sample end_sample : Nat) :
    Except String (List (List Char) × TextSt) :=
  readInfoChunkAux sample_count lines st sample_ids
    start_sample end_sample extractSampleId

/-- Splitting a line at tab characters, the spec-side notion of
"tab-delimited fields" (spec section 6). -/
def splitTab : List Char → List (List Char)
  | [] => [[]]
  | c :: cs =>
    if c = '\t' then [] :: splitTab cs
    else
      match splitTab cs with
      | [] => [[c]]
      | f :: rest => (c :: f) :: rest

/-- Modelled from the spec: "each equal to the corresponding tab-field"
— the field of a line at a given index, fields being the tab-separated
pieces of the line. -/
def specTabField (k : Nat) (line : List Char) : List Char :=
  (splitTab line).getD k []

/-- The cell of a genotype matrix at row `r`, column `c` (with an
arbitrary default outside the matrix extent). -/
def cellAt (g : List (List Int)) (r c : Nat) : Int :=
  (g.getD r []).getD c 0

/-- Shape invariant of the output matrix: `nS` rows, each of width
`nV`. -/
def matrixInv (nS nV : Nat) (g : List (List Int)) : Prop :=
  g.length = nS ∧ ∀ row ∈ g, row.length = nV

/-! ### Sanity checks on concrete inputs -/

example :
    readHeader [0x6c, 0x1b, 0x10, 4, 0, 0, 0, 3, 0, 0, 0] 0 0 0 0 =
    .ok ⟨4, 3, 11, 11, false⟩ := by rfl

example :
    readHeader [0x6b, 0x1b, 0x10, 4, 0, 0, 0, 3, 0, 0, 0] 0 0 0 0 =
    .error "Invalid PGEN file format" := by rfl

example :
    readVariantInfoChunk 4 ["#HDR".toList, "1\tvariant_A\tx".toList,
      "2\tvariant_B".toList] ⟨0, false, []⟩ [] 0 2 =
    .ok (["variant_A".toList, "variant_B".toList],
      ⟨3, false, "2\tvariant_B".toList⟩) := by rfl

example :
    readSampleInfoChunk 4 ["#HDR".toList, "sam0\tp".toList, "sam1".toList]
      ⟨0, false, []⟩ [] 0 2 =
    .ok (["sam0".toList, "sam1".toList], ⟨3, false, "sam1".toList⟩) := by rfl

example : specTabField 1 "1\tvariant_A\tx".toList = "variant_A".toList := by
  rfl

example : splitTab "a\tb".toList = ["a".toList, "b".toList] := by rfl

/-! ### Header claims -/

/-- Claim C6: header validation fails with the format error exactly when
the first two bytes of the `.pgen` file differ from `{0x6C, 0x1B}`, for
every byte pair and every file tail; it passes the magic check exactly
when both match. -/
theorem readHeader_magic_iff (b0 b1 : Nat) (rest : List Nat)
    (j0 j1 vcInit scInit : Nat) :
    readHeader (b0 :: b1 :: rest) j0 j1 vcInit scInit =
      .error "Invalid PGEN file format" ↔ ¬ (b0 = 0x6c ∧ b1 = 0x1b) := by
  by_cases h : b0 = 0x6c ∧ b1 = 0x1b
  · simp [readHeader, readChars, h]
  · simp [readHeader, readChars, h]

/-- Claim C5 (code bug in `main.cpp` lines 51-53): the mode byte is read
but never compared against `0x10`; header construction succeeds for
every mode byte, including the concrete failing input with mode `0x00`. -/
theorem readHeader_mode_unchecked :
    (∀ (mode : Nat) (rest : List Nat) (j0 j1 vcInit scInit : Nat),
      exceptIsOk (readHeader (0x6c :: 0x1b :: mode :: rest)
        j0 j1 vcInit scInit) = true) ∧
    readHeader [0x6c, 0x1b, 0x00, 4, 0, 0, 0, 3, 0, 0, 0] 0 0 0 0 =
      .ok ⟨4, 3, 11, 11, false⟩ := by
  refine ⟨fun mode rest j0 j1 vcInit scInit => ?_, by rfl⟩
  simp [readHeader, readChars, exceptIsOk]

/-! ### Range-check claims -/

/-- Claim C4, counterexample: the request `v0 = v1 = 0` violates the
precondition `v0 < v1`, yet the call succeeds (the code only checks the
upper bounds `end > count`), returning a window with one empty row. -/
theorem readGenotypesChunk_accepts_empty_range :
    readGenotypesChunk 4 4 [] 11 false 0 [] 0 0 0 1 =
      .ok ⟨11, 0, false, [], [[]]⟩ := by rfl

/-- Claim C4, amended: `readGenotypesChunk` fails with the range error
iff `end_variant > variant_count` or `end_sample > sample_count`; no
lower-bound or ordering check (`v0 < v1`, `s0 < s1`) is performed. -/
theorem readGenotypesChunk_error_iff (vc sc : Nat) (file : List Nat)
    (pos0 : Nat) (failed0 : Bool) (byteInit : Nat) (g0 : List (List Int))
    (sv ev ss es : Nat) :
    exceptIsOk (readGenotypesChunk vc sc file pos0 failed0 byteInit g0
      sv ev ss es) = false ↔ (ev > vc ∨ es > sc) := by
  by_cases h : ev > vc ∨ es > sc <;>
    simp [readGenotypesChunk, exceptIsOk, h]

/-! ### Short-read claims -/

/-- Claim C7, counterexample: the header declares a 1-variant, 2-sample
matrix but the file holds a single data byte.  The window request
`v[0,1) × s[0,2)` needs 2 bytes; the second read fails, yet the call
returns success with a fully resized and written output matrix (the
failed read re-decodes the stale byte value). -/
theorem readGenotypesChunk_short_read_no_error :
    readGenotypesChunk 1 2 (List.replicate 11 0 ++ [1]) 11 false 0 []
      0 1 0 2 = .ok ⟨12, 1, true, [11, 12], [[1], [1]]⟩ := by rfl

/-- Claim C7, amended: a window request inside the declared bounds never
fails, regardless of how many bytes the file actually holds — short
reads are not detected and the caller's output is mutated anyway. -/
theorem readGenotypesChunk_ok_of_in_range (vc sc : Nat) (file : List Nat)
    (pos0 : Nat) (failed0 : Bool) (byteInit : Nat) (g0 : List (List Int))
    (sv ev ss es : Nat) (hev : ev ≤ vc) (hes : es ≤ sc) :
    ∃ st, readGenotypesChunk vc sc file pos0 failed0 byteInit g0
      sv ev ss es = .ok st := by
  have h : ¬ (ev > vc ∨ es > sc) := by omega
  unfold readGenotypesChunk
  rw [if_neg h]
  exact ⟨_, rfl⟩

/-- Witness for `readGenotypesChunk_ok_of_in_range` at a concrete
in-range request over an empty file. -/
theorem readGenotypesChunk_ok_of_in_range_witness :
    (1 : Nat) ≤ 1 ∧
    ∃ st, readGenotypesChunk 1 1 [] 0 false 0 [] 0 1 0 1 = .ok st :=
  ⟨by decide, readGenotypesChunk_ok_of_in_range 1 1 [] 0 false 0 [] 0 1 0 1
    (by decide) (by decide)⟩

/-! ### Offset-formula claims -/

/-- Claim C1, counterexample: with `sample_count = 4` and
`start_variant = 2^30`, the product `start_variant * sample_count`
wraps to `0` in `uint32_t` arithmetic, so the first read happens at
byte offset `11`, not at `11 + (2^30 * 4 + 0) / 4` as the claim's
exact-arithmetic formula demands. -/
theorem readGenotypesChunk_offset_wraps :
    readGenotypesChunk (2 ^ 30 + 1) 4 (List.replicate 11 0 ++ [1]) 11
      false 0 [] (2 ^ 30) (2 ^ 30 + 1) 0 1 =
      .ok ⟨12, 1, false, [11], [[1]]⟩ ∧
    (11 : Nat) ≠ 11 + (2 ^ 30 * 4 + 0) / 4 :=
  ⟨by rfl, by decide⟩

/-- Claim C9, counterexample: the data line `ABC` has no tab delimiter,
yet `readVariantInfoChunk` raises no error and returns the whole line
as the identifier (in `main.cpp` line 108, `find` returns `npos` and
`npos + 1` wraps to `0`). -/
theorem readVariantInfoChunk_no_delimiter_check :
    readVariantInfoChunk 1 ["#CHROM\tID".toList, "ABC".toList]
      ⟨0, false, []⟩ [] 0 1 =
      .ok (["ABC".toList], ⟨2, false, "ABC".toList⟩) := by rfl

/-- Claim C9, amended: no delimiter validation exists; a line without a
tab yields the entire line as the extracted identifier, for both the
variant-field and the sample-field extraction. -/
theorem extract_no_tab_returns_whole_line (line : List Char)
    (h : '\t' ∉ line) :
    extractVariantId line = line ∧ extractSampleId line = line := by
  have hnone : findTabIdx line = none := by
    rw [findTabIdx, List.findIdx?_eq_none_iff]
    intro x hx
    simp only [decide_eq_false_iff_not]
    intro hxeq
    exact h (hxeq ▸ hx)
  constructor
  · unfold extractVariantId
    rw [hnone]
    simp [hnone]
  · unfold extractSampleId
    rw [hnone]

/-- Witness for `extract_no_tab_returns_whole_line` on the line `ABC`. -/
theorem extract_no_tab_returns_whole_line_witness :
    '\t' ∉ "ABC".toList ∧
    (extractVariantId "ABC".toList = "ABC".toList ∧
     extractSampleId "ABC".toList = "ABC".toList) :=
  ⟨by decide, extract_no_tab_returns_whole_line "ABC".toList (by decide)⟩

/-- Claim C10, counterexample: two consecutive `readVariantInfoChunk`
calls with identical arguments over the same file return different
identifier sequences, because the text cursor persists across calls:
the first call returns record 0 (`a1`), the second returns `c1`. -/
theorem readVariantInfoChunk_cursor_persists :
    readVariantInfoChunk 4 ["#H".toList, "A\ta1\tx".toList,
      "B\tb1\tx".toList, "C\tc1\tx".toList, "D\td1\tx".toList]
      ⟨0, false, []⟩ [] 0 1 =
      .ok (["a1".toList], ⟨2, false, "A\ta1\tx".toList⟩) ∧
    readVariantInfoChunk 4 ["#H".toList, "A\ta1\tx".toList,
      "B\tb1\tx".toList, "C\tc1\tx".toList, "D\td1\tx".toList]
      ⟨2, false, "A\ta1\tx".toList⟩ [] 0 1 =
      .ok (["c1".toList], ⟨4, false, "C\tc1\tx".toList⟩) ∧
    ("a1".toList ≠ "c1".toList) :=
  ⟨by rfl, by rfl, by decide⟩

example :
    readGenotypesChunk 4 3 ((List.replicate 11 0) ++ [0, 1, 2, 3]) 11 false 0 []
      0 2 0 2 =
    .ok ⟨15, 3, false, [11, 12, 13, 14], [[0, 2], [1, -1]]⟩ := by rfl

example :
    readGenotypesChunk 4 3 [] 11 false 0 [] 0 5 0 2 =
    .error "Requested chunk is out of range" := by rfl

/-! ### Machinery for the genotype window loops -/

/-- `uint32_t` subtraction `a - b` agrees with `Nat` subtraction when
`b ≤ a < 2 ^ 32`. -/
theorem uint32_sub_wrap (a b : Nat) (hba : b ≤ a) (ha : a < 2 ^ 32) :
    (2 ^ 32 + a - b) % 2 ^ 32 = a - b := by
  have h1 : 2 ^ 32 + a - b = 2 ^ 32 + (a - b) := by omega
  rw [h1, Nat.add_mod_left]
  exact Nat.mod_eq_of_lt (by omega)

/-- A successful in-range request reduces to the double fold over the
initial state built from the resized output and the seek target. -/
theorem readGenotypesChunk_eq_ok (vc sc : Nat) (file : List Nat)
    (pos0 byteInit : Nat) (g0 : List (List Int)) (sv ev ss es : Nat)
    (hev : ev ≤ vc) (hes : es ≤ sc) :
    readGenotypesChunk vc sc file pos0 false byteInit g0 sv ev ss es =
      .ok ((List.range' sv (ev - sv)).foldl
        (fun st v => (List.range' ss (es - ss)).foldl
          (innerStep file sv ss v) st)
        ⟨startPos sv sc ss, byteInit, false, [],
         vectorResize g0 ((2 ^ 32 + es - ss) % 2 ^ 32)
           (List.replicate ((2 ^ 32 + ev - sv) % 2 ^ 32) 0)⟩) := by
  have hcond : ¬ (ev > vc ∨ es > sc) := by omega
  unfold readGenotypesChunk
  rw [if_neg hcond]
  rfl

/-- Resizing an empty vector yields `n` copies of the fill row. -/
theorem vectorResize_nil (n : Nat) (fill : List Int) :
    vectorResize [] n fill = List.replicate n fill := by
  cases n with
  | zero => simp [vectorResize]
  | succ k => simp [vectorResize]

/-- `readByte` leaves the output matrix untouched. -/
theorem readByte_snd_g (file : List Nat) (st : St) :
    (readByte file st).2.g = st.g := by
  unfold readByte
  split <;> rfl

/-- `readByte` appends the attempted position to the read log. -/
theorem readByte_snd_log (file : List Nat) (st : St) :
    (readByte file st).2.log = st.log ++ [st.pos] := by
  unfold readByte
  split <;> rfl

/-- One loop iteration writes the decode of the byte it read into the
window cell for `(v, s)`. -/
theorem innerStep_g (file : List Nat) (sv ss v : Nat) (st : St) (s : Nat) :
    (innerStep file sv ss v st s).g =
      writeCell st.g (s - ss) (v - sv) (decode (readByte file st).1) := by
  show writeCell (readByte file st).2.g (s - ss) (v - sv)
      (decode (readByte file st).1) =
    writeCell st.g (s - ss) (v - sv) (decode (readByte file st).1)
  rw [readByte_snd_g]

/-- One loop iteration appends exactly one attempted read position. -/
theorem innerStep_log (file : List Nat) (sv ss v : Nat) (st : St) (s : Nat) :
    (innerStep file sv ss v st s).log = st.log ++ [st.pos] := by
  show (readByte file st).2.log = st.log ++ [st.pos]
  rw [readByte_snd_log]

/-- A successful loop iteration in full. -/
theorem innerStep_eq (file : List Nat) (sv ss v : Nat) (st : St) (s : Nat)
    (h1 : st.failed = false) (h2 : st.pos < file.length) :
    innerStep file sv ss v st s =
      ⟨st.pos + 1, file.get ⟨st.pos, h2⟩, st.failed, st.log ++ [st.pos],
       writeCell st.g (s - ss) (v - sv) (decode (file.get ⟨st.pos, h2⟩))⟩ := by
  unfold innerStep readByte
  rw [dif_pos ⟨h1, h2⟩]

/-- Invariant preservation along any fold. -/
theorem foldl_induction {σ α : Type} (f : σ → α → σ) (P : σ → Prop)
    (hf : ∀ s a, P s → P (f s a)) :
    ∀ (l : List α) (s : σ), P s → P (l.foldl f s) := by
  intro l
  induction l with
  | nil => intro s h; simpa using h
  | cons x xs ih =>
    intro s h
    rw [List.foldl_cons]
    exact ih _ (hf s x h)

/-- When all requested bytes are available, the inner sample loop
advances the position by its iteration count, keeps the stream healthy,
and logs exactly the positions it visited, in order. -/
theorem innerFold_state (file : List Nat) (sv ss v : Nat) :
    ∀ (n s : Nat) (st : St), st.failed = false →
      st.pos + n ≤ file.length →
      ∃ b g, (List.range' s n).foldl (innerStep file sv ss v) st =
        ⟨st.pos + n, b, false, st.log ++ List.range' st.pos n, g⟩ := by
  intro n
  induction n with
  | zero =>
    intro s st h1 h2
    refine ⟨st.last, st.g, ?_⟩
    cases st
    simp_all
  | succ n ih =>
    intro s st h1 h2
    have hlt : st.pos < file.length := by omega
    rw [List.range'_succ, List.foldl_cons, innerStep_eq file sv ss v st s h1 hlt]
    obtain ⟨b, g, hfold⟩ := ih (s + 1)
      ⟨st.pos + 1, file.get ⟨st.pos, hlt⟩, st.failed, st.log ++ [st.pos],
       writeCell st.g (s - ss) (v - sv) (decode (file.get ⟨st.pos, hlt⟩))⟩
      h1 (show st.pos + 1 + n ≤ file.length by omega)
    refine ⟨b, g, ?_⟩
    rw [hfold]
    simp only [St.mk.injEq]
    refine ⟨by omega, trivial, trivial, ?_, trivial⟩
    show (st.log ++ [st.pos]) ++ List.range' (st.pos + 1) n =
      st.log ++ List.range' st.pos (n + 1)
    rw [List.append_assoc, List.singleton_append, ← List.range'_succ]

/-- When all requested bytes are available, the full variant × sample
loop nest advances the position by the total element count and logs a
contiguous run of positions. -/
theorem outerFold_state (file : List Nat) (sv ss nS : Nat) :
    ∀ (m v : Nat) (st : St), st.failed = false →
      st.pos + m * nS ≤ file.length →
      ∃ b g, (List.range' v m).foldl
          (fun st v' => (List.range' ss nS).foldl (innerStep file sv ss v') st)
          st =
        ⟨st.pos + m * nS, b, false, st.log ++ List.range' st.pos (m * nS), g⟩ := by
  intro m
  induction m with
  | zero =>
    intro v st h1 h2
    refine ⟨st.last, st.g, ?_⟩
    cases st
    simp_all
  | succ m ih =>
    intro v st h1 h2
    have hmul : (m + 1) * nS = nS + m * nS := by ring
    rw [List.range'_succ, List.foldl_cons]
    obtain ⟨b1, g1, hinner⟩ := innerFold_state file sv ss v nS ss st h1
      (by omega)
    rw [hinner]
    obtain ⟨b2, g2, hrest⟩ := ih (v + 1)
      ⟨st.pos + nS, b1, false, st.log ++ List.range' st.pos nS, g1⟩
      rfl (show st.pos + nS + m * nS ≤ file.length by omega)
    refine ⟨b2, g2, ?_⟩
    rw [hrest]
    simp only [St.mk.injEq]
    refine ⟨by omega, trivial, trivial, ?_, trivial⟩
    show (st.log ++ List.range' st.pos nS) ++
        List.range' (st.pos + nS) (m * nS) =
      st.log ++ List.range' st.pos ((m + 1) * nS)
    rw [List.append_assoc, List.range'_append_1]
    rw [show m * nS + nS = (m + 1) * nS by ring]

/-- Every decoded genotype is `0`, `1`, `2` or `MISSING`. -/
theorem decode_cases (b : Nat) :
    decode b = 0 ∨ decode b = 1 ∨ decode b = 2 ∨ decode b = MISSING := by
  have h : b &&& 3 < 4 := by
    have := Nat.and_lt_two_pow b (show 3 < 2 ^ 2 by norm_num)
    simpa using this
  unfold decode MISSING
  by_cases h3 : b &&& 3 = 3
  · simp [h3]
  · have h012 : b &&& 3 = 0 ∨ b &&& 3 = 1 ∨ b &&& 3 = 2 := by omega
    rcases h012 with h0 | h0 | h0 <;> simp [h0]

/-- A `getD` lookup is either a member of the list or the default. -/
theorem getD_mem_or_eq {α : Type} (l : List α) (n : Nat) (d : α) :
    l.getD n d ∈ l ∨ l.getD n d = d := by
  by_cases h : n < l.length
  · left
    rw [List.getD_eq_getElem?_getD, List.getElem?_eq_getElem h]
    exact List.getElem_mem h
  · right
    rw [List.getD_eq_getElem?_getD, List.getElem?_eq_none (by omega)]
    rfl

/-- `writeCell` keeps every entry in the genotype domain as long as the
written value is in it. -/
theorem writeCell_values (g : List (List Int)) (r c : Nat) (x : Int)
    (hx : x = 0 ∨ x = 1 ∨ x = 2 ∨ x = MISSING)
    (hg : ∀ row ∈ g, ∀ y ∈ row, y = 0 ∨ y = 1 ∨ y = 2 ∨ y = MISSING) :
    ∀ row ∈ writeCell g r c x, ∀ y ∈ row,
      y = 0 ∨ y = 1 ∨ y = 2 ∨ y = MISSING := by
  intro row hrow y hy
  rcases List.mem_or_eq_of_mem_set hrow with hrow' | hroweq
  · exact hg row hrow' y hy
  · subst hroweq
    rcases List.mem_or_eq_of_mem_set hy with hy' | hyeq
    · rcases getD_mem_or_eq g r [] with hm | hnil
      · exact hg _ hm y hy'
      · rw [hnil] at hy'
        cases hy'
    · subst hyeq
      exact hx

/-- Every cell of the matrix produced by the loop nest is `0`, `1`, `2`
or `MISSING`, whatever the stream does. -/
theorem outerFold_values (file : List Nat) (sv ss nS : Nat)
    (l : List Nat) (st : St)
    (hg : ∀ row ∈ st.g, ∀ y ∈ row, y = 0 ∨ y = 1 ∨ y = 2 ∨ y = MISSING) :
    ∀ row ∈ (l.foldl
      (fun st v' => (List.range' ss nS).foldl (innerStep file sv ss v') st)
      st).g, ∀ y ∈ row, y = 0 ∨ y = 1 ∨ y = 2 ∨ y = MISSING := by
  refine foldl_induction _
    (fun st => ∀ row ∈ st.g, ∀ y ∈ row, y = 0 ∨ y = 1 ∨ y = 2 ∨ y = MISSING)
    ?_ l st hg
  intro st1 v' h1
  refine foldl_induction _
    (fun st => ∀ row ∈ st.g, ∀ y ∈ row, y = 0 ∨ y = 1 ∨ y = 2 ∨ y = MISSING)
    ?_ (List.range' ss nS) st1 h1
  intro st2 s h2
  rw [innerStep_g]
  exact writeCell_values _ _ _ _ (decode_cases _) h2

/-- Claim C2: an in-range window request over a file that holds the
requested bytes reads exactly `(v1-v0)*(s1-s0)` bytes linearly, one per
element, at consecutive offsets starting from the seek target, and
every decoded genotype value is in `{0, 1, 2, MISSING}`. -/
theorem readGenotypesChunk_linear_reads_and_values
    (vc sc : Nat) (file : List Nat) (pos0 byteInit : Nat)
    (sv ev ss es : Nat) (hev : ev ≤ vc) (hes : es ≤ sc)
    (hlen : startPos sv sc ss + (ev - sv) * (es - ss) ≤ file.length) :
    ∃ st, readGenotypesChunk vc sc file pos0 false byteInit [] sv ev ss es =
        .ok st ∧
      st.log = List.range' (startPos sv sc ss) ((ev - sv) * (es - ss)) ∧
      ∀ row ∈ st.g, ∀ y ∈ row, y = 0 ∨ y = 1 ∨ y = 2 ∨ y = MISSING := by
  rw [readGenotypesChunk_eq_ok vc sc file pos0 byteInit [] sv ev ss es hev hes]
  obtain ⟨b, g, hfold⟩ := outerFold_state file sv ss (es - ss) (ev - sv) sv
    ⟨startPos sv sc ss, byteInit, false, [],
     vectorResize [] ((2 ^ 32 + es - ss) % 2 ^ 32)
       (List.replicate ((2 ^ 32 + ev - sv) % 2 ^ 32) 0)⟩
    rfl (show startPos sv sc ss + (ev - sv) * (es - ss) ≤ file.length
      from hlen)
  refine ⟨_, rfl, ?_, ?_⟩
  · rw [hfold]
    show [] ++ List.range' (startPos sv sc ss) ((ev - sv) * (es - ss)) =
      List.range' (startPos sv sc ss) ((ev - sv) * (es - ss))
    rw [List.nil_append]
  · refine outerFold_values file sv ss (es - ss)
      (List.range' sv (ev - sv)) _ ?_
    show ∀ row ∈ vectorResize [] ((2 ^ 32 + es - ss) % 2 ^ 32)
        (List.replicate ((2 ^ 32 + ev - sv) % 2 ^ 32) 0),
      ∀ y ∈ row, y = 0 ∨ y = 1 ∨ y = 2 ∨ y = MISSING
    rw [vectorResize_nil]
    intro row hrow y hy
    rw [List.eq_of_mem_replicate hrow] at hy
    rw [List.eq_of_mem_replicate hy]
    left
    rfl

/-- Witness for `readGenotypesChunk_linear_reads_and_values` on a
2-variant × 2-sample file. -/
theorem readGenotypesChunk_linear_reads_and_values_witness :
    (2 : Nat) ≤ 2 ∧
    ∃ st, readGenotypesChunk 2 2 (List.replicate 11 0 ++ [0, 1, 2, 3]) 0
        false 0 [] 0 2 0 2 = .ok st ∧
      st.log = List.range' (startPos 0 2 0) ((2 - 0) * (2 - 0)) ∧
      ∀ row ∈ st.g, ∀ y ∈ row, y = 0 ∨ y = 1 ∨ y = 2 ∨ y = MISSING :=
  ⟨by decide, readGenotypesChunk_linear_reads_and_values 2 2
    (List.replicate 11 0 ++ [0, 1, 2, 3]) 0 0 0 2 0 2
    (by decide) (by decide) (by decide)⟩

/-- Claim C1, amended: for a nonempty in-range window over a file that
holds the requested bytes, the first byte is read at offset
`startPos v0 sampleCount s0 = 11 + ((v0 * sampleCount + s0) % 2^32) / 4`
— the `uint32_t` evaluation of the spec's offset formula. -/
theorem readGenotypesChunk_first_read_at_startPos
    (vc sc : Nat) (file : List Nat) (pos0 byteInit : Nat)
    (g0 : List (List Int)) (sv ev ss es : Nat)
    (hvv : sv < ev) (hss : ss < es) (hev : ev ≤ vc) (hes : es ≤ sc)
    (hlen : startPos sv sc ss + (ev - sv) * (es - ss) ≤ file.length) :
    ∃ st, readGenotypesChunk vc sc file pos0 false byteInit g0 sv ev ss es =
        .ok st ∧
      st.log.head? = some (startPos sv sc ss) := by
  rw [readGenotypesChunk_eq_ok vc sc file pos0 byteInit g0 sv ev ss es hev hes]
  obtain ⟨b, g, hfold⟩ := outerFold_state file sv ss (es - ss) (ev - sv) sv
    ⟨startPos sv sc ss, byteInit, false, [],
     vectorResize g0 ((2 ^ 32 + es - ss) % 2 ^ 32)
       (List.replicate ((2 ^ 32 + ev - sv) % 2 ^ 32) 0)⟩
    rfl (show startPos sv sc ss + (ev - sv) * (es - ss) ≤ file.length
      from hlen)
  refine ⟨_, rfl, ?_⟩
  rw [hfold]
  show ([] ++ List.range' (startPos sv sc ss)
      ((ev - sv) * (es - ss))).head? = some (startPos sv sc ss)
  rw [List.nil_append]
  obtain ⟨T, hT⟩ : ∃ T, (ev - sv) * (es - ss) = T + 1 := by
    have hpos : 0 < (ev - sv) * (es - ss) := Nat.mul_pos (by omega) (by omega)
    exact ⟨(ev - sv) * (es - ss) - 1, by omega⟩
  rw [hT, List.range'_succ]
  rfl

/-- Witness for `readGenotypesChunk_first_read_at_startPos` on a
1×1 window. -/
theorem readGenotypesChunk_first_read_at_startPos_witness :
    (0 : Nat) < 1 ∧
    ∃ st, readGenotypesChunk 1 1 (List.replicate 12 0) 0 false 0 []
        0 1 0 1 = .ok st ∧
      st.log.head? = some (startPos 0 1 0) :=
  ⟨by decide, readGenotypesChunk_first_read_at_startPos 1 1
    (List.replicate 12 0) 0 0 [] 0 1 0 1
    (by decide) (by decide) (by decide) (by decide) (by decide)⟩

/-- Under the shape invariant, every row lookup has width `nV`. -/
theorem matrixInv_row_len (nS nV : Nat) (g : List (List Int)) (r : Nat)
    (h : matrixInv nS nV g) (hr : r < nS) :
    (g.getD r []).length = nV := by
  obtain ⟨hlen, hrow⟩ := h
  have hrg : r < g.length := by omega
  rw [List.getD_eq_getElem?_getD, List.getElem?_eq_getElem hrg]
  exact hrow _ (List.getElem_mem hrg)

/-- `writeCell` inside the matrix extent preserves the shape
invariant. -/
theorem writeCell_matrixInv (nS nV : Nat) (g : List (List Int)) (r c : Nat)
    (x : Int) (hr : r < nS) (h : matrixInv nS nV g) :
    matrixInv nS nV (writeCell g r c x) := by
  obtain ⟨hlen, hrow⟩ := h
  constructor
  · rw [writeCell, List.length_set]
    exact hlen
  · intro row hmem
    rcases List.mem_or_eq_of_mem_set hmem with hm | heq
    · exact hrow row hm
    · subst heq
      rw [List.length_set]
      exact matrixInv_row_len nS nV g r ⟨hlen, hrow⟩ hr

/-- Reading back the cell a `writeCell` just wrote. -/
theorem cellAt_writeCell_eq (g : List (List Int)) (r c : Nat) (x : Int)
    (hr : r < g.length) (hc : c < (g.getD r []).length) :
    cellAt (writeCell g r c x) r c = x := by
  unfold cellAt writeCell
  have h1 : (g.set r ((g.getD r []).set c x)).getD r [] =
      (g.getD r []).set c x := by
    rw [List.getD_eq_getElem?_getD, List.getElem?_set_self hr]
    rfl
  rw [h1, List.getD_eq_getElem?_getD, List.getElem?_set_self hc]
  rfl

/-- `writeCell` leaves every other cell unchanged. -/
theorem cellAt_writeCell_ne (g : List (List Int)) (r c r' c' : Nat) (x : Int)
    (h : ¬ (r' = r ∧ c' = c)) :
    cellAt (writeCell g r c x) r' c' = cellAt g r' c' := by
  unfold cellAt writeCell
  by_cases hrr : r' = r
  · subst hrr
    have hcc : c' ≠ c := fun hcq => h ⟨rfl, hcq⟩
    by_cases hrl : r' < g.length
    · have h1 : (g.set r' ((g.getD r' []).set c x)).getD r' [] =
          (g.getD r' []).set c x := by
        rw [List.getD_eq_getElem?_getD, List.getElem?_set_self hrl]
        rfl
      rw [h1, List.getD_eq_getElem?_getD ((g.getD r' []).set c x),
        List.getElem?_set_ne (fun e => hcc e.symm),
        ← List.getD_eq_getElem?_getD]
    · rw [List.set_eq_of_length_le (by omega)]
  · rw [List.getD_eq_getElem?_getD (g.set r ((g.getD r []).set c x)),
      List.getElem?_set_ne (fun e => hrr e.symm),
      ← List.getD_eq_getElem?_getD]

/-- The inner sample loop preserves the shape invariant. -/
theorem innerFold_matrixInv (file : List Nat) (sv ss v nS nV : Nat) :
    ∀ (n s : Nat) (st : St), ss ≤ s → (s - ss) + n ≤ nS →
      matrixInv nS nV st.g →
      matrixInv nS nV
        (((List.range' s n).foldl (innerStep file sv ss v) st)).g := by
  intro n
  induction n with
  | zero =>
    intro s st _ _ h
    simpa using h
  | succ n ih =>
    intro s st hss hb h
    rw [List.range'_succ, List.foldl_cons]
    refine ih (s + 1) _ (by omega) (by omega) ?_
    rw [innerStep_g]
    exact writeCell_matrixInv nS nV st.g (s - ss) (v - sv) _ (by omega) h

/-- The whole loop nest preserves the shape invariant. -/
theorem outerFold_matrixInv (file : List Nat) (sv ss nS nV : Nat)
    (l : List Nat) (st : St) (h : matrixInv nS nV st.g) :
    matrixInv nS nV ((l.foldl
      (fun st v' => (List.range' ss nS).foldl (innerStep file sv ss v') st)
      st)).g :=
  foldl_induction _ (fun st => matrixInv nS nV st.g)
    (fun st1 v' h1 =>
      innerFold_matrixInv file sv ss v' nS nV nS ss st1 (Nat.le_refl ss)
        (by omega) h1)
    l st h

/-- Effect of the inner sample loop on one fixed cell `(r, c)`: the loop
for variant `v` writes column `v - sv`; row `r` receives the decode of
the byte at offset `st.pos + (r - (s - ss))`, and every other cell is
untouched. -/
theorem innerFold_cell (file : List Nat) (sv ss v nS nV r c : Nat)
    (hr : r < nS) (hc : c < nV) :
    ∀ (n s : Nat) (st : St), st.failed = false →
      st.pos + n ≤ file.length → ss ≤ s → matrixInv nS nV st.g →
      (s - ss) + n ≤ nS →
      cellAt ((List.range' s n).foldl (innerStep file sv ss v) st).g r c =
        if c = v - sv ∧ s - ss ≤ r ∧ r < (s - ss) + n
        then decode (file.getD (st.pos + (r - (s - ss))) 0)
        else cellAt st.g r c := by
  intro n
  induction n with
  | zero =>
    intro s st h1 h2 hss hInv hb
    simp only [List.range'_zero, List.foldl_nil]
    rw [if_neg (by omega)]
  | succ n ih =>
    intro s st h1 h2 hss hInv hb
    have hlt : st.pos < file.length := by omega
    rw [List.range'_succ, List.foldl_cons,
      innerStep_eq file sv ss v st s h1 hlt]
    have hInv' : matrixInv nS nV
        (writeCell st.g (s - ss) (v - sv)
          (decode (file.get ⟨st.pos, hlt⟩))) :=
      writeCell_matrixInv nS nV st.g (s - ss) (v - sv) _ (by omega) hInv
    have ih' :
        cellAt ((List.range' (s + 1) n).foldl (innerStep file sv ss v)
          ⟨st.pos + 1, file.get ⟨st.pos, hlt⟩, st.failed,
           st.log ++ [st.pos],
           writeCell st.g (s - ss) (v - sv)
             (decode (file.get ⟨st.pos, hlt⟩))⟩).g r c =
        if c = v - sv ∧ s + 1 - ss ≤ r ∧ r < (s + 1 - ss) + n
        then decode (file.getD (st.pos + 1 + (r - (s + 1 - ss))) 0)
        else cellAt (writeCell st.g (s - ss) (v - sv)
          (decode (file.get ⟨st.pos, hlt⟩))) r c :=
      ih (s + 1) _ h1 (show st.pos + 1 + n ≤ file.length by omega)
        (by omega) hInv' (by omega)
    rw [ih']
    by_cases hcv : c = v - sv
    · by_cases hin : s + 1 - ss ≤ r ∧ r < (s + 1 - ss) + n
      · rw [if_pos ⟨hcv, hin⟩,
          if_pos (show c = v - sv ∧ s - ss ≤ r ∧ r < (s - ss) + (n + 1)
            from ⟨hcv, by omega, by omega⟩)]
        have hidx : st.pos + 1 + (r - (s + 1 - ss)) =
            st.pos + (r - (s - ss)) := by omega
        rw [hidx]
      · rw [if_neg (fun hcon => hin hcon.2)]
        by_cases hre : r = s - ss
        · have hrg : s - ss < st.g.length := by
            have := hInv.1
            omega
          have hcg : v - sv < (st.g.getD (s - ss) []).length := by
            have := matrixInv_row_len nS nV st.g (s - ss) hInv (by omega)
            omega
          rw [hre, hcv]
          rw [cellAt_writeCell_eq st.g (s - ss) (v - sv) _ hrg hcg]
          rw [if_pos (show v - sv = v - sv ∧ s - ss ≤ s - ss ∧
              s - ss < (s - ss) + (n + 1) from ⟨rfl, by omega, by omega⟩)]
          have hz : st.pos + (s - ss - (s - ss)) = st.pos := by omega
          rw [hz]
          have hgd : file.getD st.pos 0 = file.get ⟨st.pos, hlt⟩ := by
            rw [List.getD_eq_getElem?_getD, List.getElem?_eq_getElem hlt]
            rfl
          rw [hgd]
        · rw [cellAt_writeCell_ne st.g (s - ss) (v - sv) r c _
            (fun hand => hre hand.1)]
          rw [if_neg (by omega)]
    · rw [if_neg (fun hcon => hcv hcon.1),
        cellAt_writeCell_ne st.g (s - ss) (v - sv) r c _
          (fun hand => hcv hand.2),
        if_neg (fun hcon => hcv hcon.1)]

/-- Effect of the full loop nest on one fixed cell `(r, c)`: column `c`
is written during outer iteration `c` with the byte at offset
`st.pos + c * nS + r`, realizing the variant-outer, sample-inner,
sample-major window layout. -/
theorem outerFold_cell (file : List Nat) (sv ss nS nV r c : Nat)
    (hr : r < nS) (hc : c < nV) :
    ∀ (m v : Nat) (st : St), st.failed = false →
      st.pos + m * nS ≤ file.length → sv ≤ v → matrixInv nS nV st.g →
      (v - sv) + m ≤ nV →
      cellAt ((List.range' v m).foldl
        (fun st v' => (List.range' ss nS).foldl (innerStep file sv ss v') st)
        st).g r c =
      if v - sv ≤ c ∧ c < (v - sv) + m
      then decode (file.getD (st.pos + (c - (v - sv)) * nS + r) 0)
      else cellAt st.g r c := by
  intro m
  induction m with
  | zero =>
    intro v st h1 h2 hsv hInv hbound
    simp only [List.range'_zero, List.foldl_nil]
    rw [if_neg (by omega)]
  | succ m ih =>
    intro v st h1 h2 hsv hInv hbound
    have hmul : (m + 1) * nS = nS + m * nS := by ring
    rw [List.range'_succ, List.foldl_cons]
    have hposS : st.pos + nS ≤ file.length := by omega
    obtain ⟨b1, g1, hinner⟩ := innerFold_state file sv ss v nS ss st h1 hposS
    have hcellInner := innerFold_cell file sv ss v nS nV r c hr hc nS ss st
      h1 hposS (Nat.le_refl ss) hInv (by omega)
    have hInvInner := innerFold_matrixInv file sv ss v nS nV nS ss st
      (Nat.le_refl ss) (by omega) hInv
    rw [hinner] at hcellInner hInvInner ⊢
    have hcell1 : cellAt g1 r c =
        if c = v - sv ∧ ss - ss ≤ r ∧ r < (ss - ss) + nS
        then decode (file.getD (st.pos + (r - (ss - ss))) 0)
        else cellAt st.g r c := hcellInner
    have hInv1 : matrixInv nS nV g1 := hInvInner
    have ihrest :
        cellAt ((List.range' (v + 1) m).foldl
          (fun st v' =>
            (List.range' ss nS).foldl (innerStep file sv ss v') st)
          ⟨st.pos + nS, b1, false, st.log ++ List.range' st.pos nS,
           g1⟩).g r c =
        if v + 1 - sv ≤ c ∧ c < (v + 1 - sv) + m
        then decode (file.getD (st.pos + nS + (c - (v + 1 - sv)) * nS + r) 0)
        else cellAt g1 r c :=
      ih (v + 1) _ rfl (show st.pos + nS + m * nS ≤ file.length by omega)
        (by omega) hInv1 (by omega)
    rw [ihrest]
    by_cases hceq : c = v - sv
    · have hf : ¬ (v + 1 - sv ≤ c ∧ c < (v + 1 - sv) + m) := by omega
      rw [if_neg hf, hcell1,
        if_pos (show c = v - sv ∧ ss - ss ≤ r ∧ r < (ss - ss) + nS
          from ⟨hceq, by omega, by omega⟩),
        if_pos (show v - sv ≤ c ∧ c < (v - sv) + (m + 1)
          from ⟨by omega, by omega⟩)]
      have hidx : st.pos + (r - (ss - ss)) =
          st.pos + (c - (v - sv)) * nS + r := by
        have hz : c - (v - sv) = 0 := by omega
        rw [hz]
        simp
      rw [hidx]
    · by_cases hcin : v - sv ≤ c ∧ c < (v - sv) + (m + 1)
      · have ht : v + 1 - sv ≤ c ∧ c < (v + 1 - sv) + m := by omega
        rw [if_pos ht, if_pos hcin]
        have hk : c - (v + 1 - sv) = c - (v - sv) - 1 := by omega
        rw [hk]
        have harith : st.pos + nS + (c - (v - sv) - 1) * nS + r =
            st.pos + (c - (v - sv)) * nS + r := by
          conv_rhs =>
            rw [show c - (v - sv) = (c - (v - sv) - 1) + 1 from by omega]
          ring
        rw [harith]
      · have hf1 : ¬ (v + 1 - sv ≤ c ∧ c < (v + 1 - sv) + m) := by omega
        rw [if_neg hf1, if_neg hcin, hcell1,
          if_neg (fun hcon => hceq hcon.1)]

/-- Claim C3: for requests within the declared bounds (with the window
bytes available in the file), `readGenotypesChunk` returns a window of
exactly `(s1-s0)` rows × `(v1-v0)` columns, and the element read for
variant `v` and sample `s` (iteration order variant-outer,
sample-inner, hence byte index `(v-v0)*(s1-s0) + (s-s0)` from the seek
target) is stored at `window[s-s0][v-v0]` — sample-major,
variant-minor. -/
theorem readGenotypesChunk_window_layout
    (vc sc : Nat) (file : List Nat) (pos0 byteInit : Nat)
    (sv ev ss es : Nat)
    (hvv : sv < ev) (hev : ev ≤ vc) (hss : ss < es) (hes : es ≤ sc)
    (hvc : vc < 2 ^ 32) (hsc : sc < 2 ^ 32)
    (hlen : startPos sv sc ss + (ev - sv) * (es - ss) ≤ file.length) :
    ∃ st, readGenotypesChunk vc sc file pos0 false byteInit [] sv ev ss es =
        .ok st ∧
      st.g.length = es - ss ∧
      (∀ row ∈ st.g, row.length = ev - sv) ∧
      (∀ v s, sv ≤ v → v < ev → ss ≤ s → s < es →
        cellAt st.g (s - ss) (v - sv) =
          decode (file.getD
            (startPos sv sc ss + (v - sv) * (es - ss) + (s - ss)) 0)) := by
  have hnv : (2 ^ 32 + ev - sv) % 2 ^ 32 = ev - sv :=
    uint32_sub_wrap ev sv (by omega) (by omega)
  have hns : (2 ^ 32 + es - ss) % 2 ^ 32 = es - ss :=
    uint32_sub_wrap es ss (by omega) (by omega)
  rw [readGenotypesChunk_eq_ok vc sc file pos0 byteInit [] sv ev ss es
    (by omega) (by omega), hnv, hns, vectorResize_nil]
  have hInv0 : matrixInv (es - ss) (ev - sv)
      (List.replicate (es - ss) (List.replicate (ev - sv) (0 : Int))) := by
    constructor
    · simp
    · intro row hrow
      rw [List.eq_of_mem_replicate hrow]
      simp
  set st0 : St := ⟨startPos sv sc ss, byteInit, false, [],
    List.replicate (es - ss) (List.replicate (ev - sv) 0)⟩ with hst0
  have hpos0 : st0.pos = startPos sv sc ss := by rw [hst0]
  have hg0 : st0.g = List.replicate (es - ss) (List.replicate (ev - sv) 0) :=
    by rw [hst0]
  have hfail0 : st0.failed = false := by rw [hst0]
  have hInvFold := outerFold_matrixInv file sv ss (es - ss) (ev - sv)
    (List.range' sv (ev - sv)) st0 (by rw [hg0]; exact hInv0)
  refine ⟨_, rfl, hInvFold.1, hInvFold.2, ?_⟩
  intro v s hv1 hv2 hs1 hs2
  have hcell := outerFold_cell file sv ss (es - ss) (ev - sv)
    (s - ss) (v - sv) (by omega) (by omega) (ev - sv) sv st0 hfail0
    (by rw [hpos0]; exact hlen) (Nat.le_refl sv)
    (by rw [hg0]; exact hInv0) (by omega)
  rw [hcell,
    if_pos (show sv - sv ≤ v - sv ∧ v - sv < (sv - sv) + (ev - sv)
      from ⟨by omega, by omega⟩),
    hpos0]
  rw [show v - sv - (sv - sv) = v - sv from by omega]

/-! ### Machinery for the metadata line readers -/

/-- `getline` on a healthy stream with a line available. -/
theorem getlineM_ok (lines : List (List Char)) (c : Nat) (l : List Char)
    (h : c < lines.length) :
    getlineM lines ⟨c, false, l⟩ = ⟨c + 1, false, lines.getD c []⟩ := by
  unfold getlineM
  simp [h]

/-- Closed form of the sequential line skip. -/
theorem skipLines_ok (lines : List (List Char)) :
    ∀ (n c : Nat) (l : List Char), c + n ≤ lines.length →
      skipLines lines ⟨c, false, l⟩ n =
        ⟨c + n, false, if n = 0 then l else lines.getD (c + n - 1) []⟩ := by
  intro n
  induction n with
  | zero =>
    intro c l h
    simp [skipLines]
  | succ n ih =>
    intro c l h
    show skipLines lines (getlineM lines ⟨c, false, l⟩) n = _
    rw [getlineM_ok lines c l (by omega),
      ih (c + 1) (lines.getD c []) (by omega)]
    by_cases hn : n = 0
    · subst hn
      simp
    · rw [if_neg hn, if_neg (show ¬ (n + 1 = 0) by omega)]
      rw [show c + 1 + n = c + (n + 1) from by omega]

/-- One record-loop iteration on a healthy cursor. -/
theorem infoStep_ok (lines : List (List Char))
    (extract : List Char → List Char) (c : Nat) (l : List Char)
    (acc : List (List Char)) (i : Nat) (h : c < lines.length) :
    infoStep lines extract (⟨c, false, l⟩, acc) i =
      (⟨c + 1, false, lines.getD c []⟩,
       acc ++ [extract (lines.getD c [])]) := by
  show (getlineM lines ⟨c, false, l⟩,
    acc ++ [extract (getlineM lines ⟨c, false, l⟩).line]) = _
  rw [getlineM_ok lines c l h]

/-- Closed form of the record-extraction loop of `readInfoChunkAux`. -/
theorem infoLoop_spec (lines : List (List Char))
    (extract : List Char → List Char) :
    ∀ (n cstart i0 : Nat) (l : List Char) (acc : List (List Char)),
      cstart + n ≤ lines.length →
      (List.range' i0 n).foldl (infoStep lines extract)
        (⟨cstart, false, l⟩, acc) =
      (⟨cstart + n, false,
        if n = 0 then l else lines.getD (cstart + n - 1) []⟩,
       acc ++ (List.range' cstart n).map
         (fun j => extract (lines.getD j []))) := by
  intro n
  induction n with
  | zero =>
    intro cstart i0 l acc h
    simp
  | succ n ih =>
    intro cstart i0 l acc h
    rw [List.range'_succ, List.foldl_cons,
      infoStep_ok lines extract cstart l acc i0 (by omega),
      ih (cstart + 1) (i0 + 1) (lines.getD cstart [])
        (acc ++ [extract (lines.getD cstart [])]) (by omega)]
    rw [Prod.mk.injEq]
    constructor
    · rw [TextSt.mk.injEq]
      refine ⟨by omega, rfl, ?_⟩
      by_cases hn : n = 0
      · subst hn
        simp
      · rw [if_neg hn, if_neg (show ¬ (n + 1 = 0) by omega),
          show cstart + 1 + n - 1 = cstart + (n + 1) - 1 from by omega]
    · rw [List.append_assoc, List.singleton_append]
      conv_rhs => rw [List.range'_succ, List.map_cons]

/-- Closed form of a whole field-range call starting at record 0 from
an arbitrary cursor `c`: it consumes lines `c .. c + r1`, returns the
extraction of lines `c+1 .. c+r1`, and leaves the cursor at
`c + 1 + r1`. -/
theorem readInfoChunkAux_zero_spec (count : Nat) (lines : List (List Char))
    (extract : List Char → List Char) (c r1 : Nat) (l : List Char)
    (acc : List (List Char)) (h1 : r1 ≤ count) (hlen : c + r1 < lines.length) :
    readInfoChunkAux count lines ⟨c, false, l⟩ acc 0 r1 extract =
      .ok (acc ++ (List.range' (c + 1) r1).map
          (fun j => extract (lines.getD j [])),
        ⟨c + 1 + r1, false, lines.getD (c + r1) []⟩) := by
  unfold readInfoChunkAux
  rw [if_neg (show ¬ (r1 > count) by omega)]
  show Except.ok
      (((List.range' 0 (r1 - 0)).foldl (infoStep lines extract)
        (skipLines lines (getlineM lines ⟨c, false, l⟩) 0, acc)).2,
       ((List.range' 0 (r1 - 0)).foldl (infoStep lines extract)
        (skipLines lines (getlineM lines ⟨c, false, l⟩) 0, acc)).1) = _
  rw [getlineM_ok lines c l (by omega)]
  rw [show skipLines lines ⟨c + 1, false, lines.getD c []⟩ 0 =
    ⟨c + 1, false, lines.getD c []⟩ from rfl]
  rw [show r1 - 0 = r1 from by omega]
  rw [infoLoop_spec lines extract r1 (c + 1) 0 (lines.getD c []) acc
    (by omega)]
  by_cases hr : r1 = 0
  · subst hr
    simp
  · rw [if_neg hr,
      show c + 1 + r1 - 1 = c + r1 from by omega]

/-- `splitTab` never returns the empty list of fields. -/
theorem splitTab_ne_nil (cs : List Char) : splitTab cs ≠ [] := by
  induction cs with
  | nil => simp [splitTab]
  | cons ch cs ih =>
    by_cases h : ch = '\t'
    · simp [splitTab, h]
    · simp only [splitTab, if_neg h]
      cases hcs : splitTab cs with
      | nil => simp
      | cons f rest => simp

/-- Splitting a line that starts with a tab. -/
theorem splitTab_tab (cs : List Char) :
    splitTab ('\t' :: cs) = [] :: splitTab cs := by
  simp [splitTab]

/-- Splitting a line that starts with an ordinary character. -/
theorem splitTab_cons (ch : Char) (cs : List Char) (h : ¬ ch = '\t') :
    ∃ f rest, splitTab cs = f :: rest ∧
      splitTab (ch :: cs) = (ch :: f) :: rest := by
  cases hcs : splitTab cs with
  | nil => exact absurd hcs (splitTab_ne_nil cs)
  | cons f rest =>
    refine ⟨f, rest, rfl, ?_⟩
    simp only [splitTab, if_neg h, hcs]

/-- First position of a tab in a nonempty line. -/
theorem findTabIdx_cons (ch : Char) (cs : List Char) :
    findTabIdx (ch :: cs) =
      if ch = '\t' then some 0
      else (findTabIdx cs).map (fun i => i + 1) := by
  unfold findTabIdx
  rw [List.findIdx?_cons]
  by_cases h : ch = '\t'
  · simp [h]
  · simp [h, List.findIdx?_succ]

/-- Extracting from a line whose head is a tab yields the empty
identifier (sample-field case). -/
theorem extractSampleId_tab (cs : List Char) :
    extractSampleId ('\t' :: cs) = [] := by
  unfold extractSampleId
  rw [findTabIdx_cons, if_pos rfl]
  rfl

/-- The sample-field extraction commutes with consing an ordinary
character. -/
theorem extractSampleId_cons (ch : Char) (cs : List Char) (h : ¬ ch = '\t') :
    extractSampleId (ch :: cs) = ch :: extractSampleId cs := by
  unfold extractSampleId
  rw [findTabIdx_cons, if_neg h]
  cases hidx : findTabIdx cs with
  | none => simp [hidx]
  | some i => simp [hidx]

/-- The source's sample-identifier extraction computes the spec's
tab-field 0. -/
theorem extractSampleId_eq_field0 (line : List Char) :
    extractSampleId line = specTabField 0 line := by
  induction line with
  | nil => rfl
  | cons ch cs ih =>
    by_cases h : ch = '\t'
    · subst h
      rw [extractSampleId_tab]
      unfold specTabField
      rw [splitTab_tab]
      rfl
    · obtain ⟨f, rest, hsplit, hsplit2⟩ := splitTab_cons ch cs h
      rw [extractSampleId_cons ch cs h, ih]
      unfold specTabField
      rw [hsplit, hsplit2]
      rfl

/-- The source's variant-identifier extraction computes the spec's
tab-field 1 on every line that contains a tab. -/
theorem extractVariantId_eq_field1 (line : List Char) (h : '\t' ∈ line) :
    extractVariantId line = specTabField 1 line := by
  induction line with
  | nil => cases h
  | cons ch cs ih =>
    by_cases hch : ch = '\t'
    · subst hch
      have he : extractVariantId ('\t' :: cs) = extractSampleId cs := by
        unfold extractVariantId extractSampleId
        rw [findTabIdx_cons, if_pos rfl]
        rfl
      rw [he, extractSampleId_eq_field0]
      unfold specTabField
      rw [splitTab_tab]
      rfl
    · have hcs : '\t' ∈ cs := by
        rcases List.mem_cons.mp h with h1 | h1
        · exact absurd h1.symm hch
        · exact h1
      obtain ⟨i, hidx⟩ : ∃ i, findTabIdx cs = some i := by
        cases hidx : findTabIdx cs with
        | none =>
          rw [findTabIdx, List.findIdx?_eq_none_iff] at hidx
          have := hidx '\t' hcs
          simp at this
        | some i => exact ⟨i, rfl⟩
      have he : extractVariantId (ch :: cs) = extractVariantId cs := by
        unfold extractVariantId
        rw [findTabIdx_cons, if_neg hch, hidx]
        rfl
      rw [he, ih hcs]
      obtain ⟨f, rest, hsplit, hsplit2⟩ := splitTab_cons ch cs hch
      unfold specTabField
      rw [hsplit, hsplit2]
      rfl

/-- Claim C8: started at the beginning of the text file, a field-range
request over records `[0, N)` with `N` within the declared count (and
the file holding the lines, each variant line containing a tab) returns
exactly `N` identifiers; identifier `i` equals tab-field 1 (variant
file) resp. tab-field 0 (sample file) of the 0-indexed source line
`1 + i` — the line right after the single skipped header line. -/
theorem readFieldRange_from_start (vc sc Nv Ns : Nat)
    (vlines slines : List (List Char))
    (hNv : Nv ≤ vc) (hNs : Ns ≤ sc)
    (hlv : Nv < vlines.length) (hls : Ns < slines.length)
    (htab : ∀ i, i < Nv → '\t' ∈ vlines.getD (1 + i) []) :
    (∃ ids st, readVariantInfoChunk vc vlines ⟨0, false, []⟩ [] 0 Nv =
        .ok (ids, st) ∧ ids.length = Nv ∧
      ∀ i, i < Nv →
        ids.getD i [] = specTabField 1 (vlines.getD (1 + i) [])) ∧
    (∃ ids st, readSampleInfoChunk sc slines ⟨0, false, []⟩ [] 0 Ns =
        .ok (ids, st) ∧ ids.length = Ns ∧
      ∀ i, i < Ns →
        ids.getD i [] = specTabField 0 (slines.getD (1 + i) [])) := by
  constructor
  · have hcall := readInfoChunkAux_zero_spec vc vlines extractVariantId 0 Nv
      [] [] hNv (by omega)
    have hmapeq : (List.range' (0 + 1) Nv).map
        (fun j => extractVariantId (vlines.getD j [])) =
        (List.range' 1 Nv).map
          (fun j => specTabField 1 (vlines.getD j [])) := by
      rw [show (0 : Nat) + 1 = 1 from rfl]
      refine List.map_congr_left ?_
      intro j hj
      rw [List.mem_range'] at hj
      obtain ⟨i, hi, rfl⟩ := hj
      simp only [Nat.one_mul]
      exact extractVariantId_eq_field1 _ (htab i hi)
    refine ⟨(List.range' 1 Nv).map
        (fun j => specTabField 1 (vlines.getD j [])),
      ⟨0 + 1 + Nv, false, vlines.getD (0 + Nv) []⟩, ?_, ?_, ?_⟩
    · show readInfoChunkAux vc vlines ⟨0, false, []⟩ [] 0 Nv
        extractVariantId = _
      rw [hcall, List.nil_append, hmapeq]
    · simp
    · intro i hi
      have hlen2 : i < ((List.range' 1 Nv).map
          (fun j => specTabField 1 (vlines.getD j []))).length := by
        simpa using hi
      rw [List.getD_eq_getElem?_getD, List.getElem?_eq_getElem hlen2]
      simp [List.getElem_range']
  · have hcall := readInfoChunkAux_zero_spec sc slines extractSampleId 0 Ns
      [] [] hNs (by omega)
    have hmapeq : (List.range' (0 + 1) Ns).map
        (fun j => extractSampleId (slines.getD j [])) =
        (List.range' 1 Ns).map
          (fun j => specTabField 0 (slines.getD j [])) := by
      rw [show (0 : Nat) + 1 = 1 from rfl]
      refine List.map_congr_left ?_
      intro j _
      exact extractSampleId_eq_field0 _
    refine ⟨(List.range' 1 Ns).map
        (fun j => specTabField 0 (slines.getD j [])),
      ⟨0 + 1 + Ns, false, slines.getD (0 + Ns) []⟩, ?_, ?_, ?_⟩
    · show readInfoChunkAux sc slines ⟨0, false, []⟩ [] 0 Ns
        extractSampleId = _
      rw [hcall, List.nil_append, hmapeq]
    · simp
    · intro i hi
      have hlen2 : i < ((List.range' 1 Ns).map
          (fun j => specTabField 0 (slines.getD j []))).length := by
        simpa using hi
      rw [List.getD_eq_getElem?_getD, List.getElem?_eq_getElem hlen2]
      simp [List.getElem_range']

/-- Witness for `readFieldRange_from_start` on two 3-line files. -/
theorem readFieldRange_from_start_witness :
    (2 : Nat) ≤ 4 ∧
    ((∃ ids st, readVariantInfoChunk 4
        ["#H".toList, "1\tvA\tx".toList, "2\tvB\ty".toList]
        ⟨0, false, []⟩ [] 0 2 = .ok (ids, st) ∧ ids.length = 2 ∧
      ∀ i, i < 2 → ids.getD i [] = specTabField 1
        ((["#H".toList, "1\tvA\tx".toList, "2\tvB\ty".toList]).getD
          (1 + i) [])) ∧
    (∃ ids st, readSampleInfoChunk 4
        ["#H".toList, "s0\tp".toList, "s1\tq".toList]
        ⟨0, false, []⟩ [] 0 2 = .ok (ids, st) ∧ ids.length = 2 ∧
      ∀ i, i < 2 → ids.getD i [] = specTabField 0
        ((["#H".toList, "s0\tp".toList, "s1\tq".toList]).getD
          (1 + i) []))) :=
  ⟨by decide, readFieldRange_from_start 4 4 2 2
    ["#H".toList, "1\tvA\tx".toList, "2\tvB\ty".toList]
    ["#H".toList, "s0\tp".toList, "s1\tq".toList]
    (by decide) (by decide) (by decide) (by decide) (by decide)⟩

/-- Claim C10, amended: consecutive `readFieldRange` calls are NOT
self-contained — the text cursor persists across calls.  A first call
over records `[0, N)` from the file start returns the extractions of
lines `1 .. N`; repeating the identical call on the resulting state
returns the extractions of lines `N+2 .. 2N+1` instead (shifted by the
`N + 1` lines the first call consumed). -/
theorem readVariantInfoChunk_second_call_shifted (vc N : Nat)
    (lines : List (List Char)) (hN : N ≤ vc)
    (hlen : 2 * N + 2 ≤ lines.length) :
    ∃ ids1 st1 ids2 st2,
      readVariantInfoChunk vc lines ⟨0, false, []⟩ [] 0 N =
        .ok (ids1, st1) ∧
      readVariantInfoChunk vc lines st1 [] 0 N = .ok (ids2, st2) ∧
      ids1 = (List.range' 1 N).map
        (fun j => extractVariantId (lines.getD j [])) ∧
      ids2 = (List.range' (N + 2) N).map
        (fun j => extractVariantId (lines.getD j [])) := by
  have h1 := readInfoChunkAux_zero_spec vc lines extractVariantId 0 N [] []
    hN (by omega)
  have h2 := readInfoChunkAux_zero_spec vc lines extractVariantId
    (0 + 1 + N) N (lines.getD (0 + N) []) [] hN (by omega)
  refine ⟨[] ++ (List.range' (0 + 1) N).map
      (fun j => extractVariantId (lines.getD j [])),
    ⟨0 + 1 + N, false, lines.getD (0 + N) []⟩,
    [] ++ (List.range' (0 + 1 + N + 1) N).map
      (fun j => extractVariantId (lines.getD j [])),
    ⟨0 + 1 + N + 1 + N, false, lines.getD (0 + 1 + N + N) []⟩,
    ?_, ?_, ?_, ?_⟩
  · show readInfoChunkAux vc lines ⟨0, false, []⟩ [] 0 N
      extractVariantId = _
    exact h1
  · show readInfoChunkAux vc lines ⟨0 + 1 + N, false, lines.getD (0 + N) []⟩
      [] 0 N extractVariantId = _
    exact h2
  · rw [List.nil_append]
  · rw [List.nil_append]
    rw [show 0 + 1 + N + 1 = N + 2 from by omega]

/-- Witness for `readVariantInfoChunk_second_call_shifted` with one
record per call over a 4-line file. -/
theorem readVariantInfoChunk_second_call_shifted_witness :
    (1 : Nat) ≤ 4 ∧
    ∃ ids1 st1 ids2 st2,
      readVariantInfoChunk 4
        ["#H".toList, "A\ta1".toList, "B\tb1".toList, "C\tc1".toList]
        ⟨0, false, []⟩ [] 0 1 = .ok (ids1, st1) ∧
      readVariantInfoChunk 4
        ["#H".toList, "A\ta1".toList, "B\tb1".toList, "C\tc1".toList]
        st1 [] 0 1 = .ok (ids2, st2) ∧
      ids1 = (List.range' 1 1).map (fun j =>
        extractVariantId ((["#H".toList, "A\ta1".toList, "B\tb1".toList,
          "C\tc1".toList]).getD j [])) ∧
      ids2 = (List.range' (1 + 2) 1).map (fun j =>
        extractVariantId ((["#H".toList, "A\ta1".toList, "B\tb1".toList,
          "C\tc1".toList]).getD j [])) :=
  ⟨by decide, readVariantInfoChunk_second_call_shifted 4 1
    ["#H".toList, "A\ta1".toList, "B\tb1".toList, "C\tc1".toList]
    (by decide) (by decide)⟩

/-- Witness for `readGenotypesChunk_window_layout` on a 2×2 window over
a 2-variant × 2-sample file with data bytes `0 1 2 3`. -/
theorem readGenotypesChunk_window_layout_witness :
    (0 : Nat) < 2 ∧
    ∃ st, readGenotypesChunk 2 2 (List.replicate 11 0 ++ [0, 1, 2, 3]) 0
        false 0 [] 0 2 0 2 = .ok st ∧
      st.g.length = 2 - 0 ∧
      (∀ row ∈ st.g, row.length = 2 - 0) ∧
      (∀ v s, 0 ≤ v → v < 2 → 0 ≤ s → s < 2 →
        cellAt st.g (s - 0) (v - 0) =
          decode ((List.replicate 11 0 ++ [0, 1, 2, 3]).getD
            (startPos 0 2 0 + (v - 0) * (2 - 0) + (s - 0)) 0)) :=
  ⟨by decide, readGenotypesChunk_window_layout 2 2
    (List.replicate 11 0 ++ [0, 1, 2, 3]) 0 0 0 2 0 2
    (by decide) (by decide) (by decide) (by decide) (by decide) (by decide)
    (by decide)⟩

end Plink2
